import Mathlib

/-
Verification of the UF2 flasher dialog (thonny/flasher.py).

The Python module is shallowly embedded as follows.
- Python `str` is Lean `String`; the handful of string operations the module
  uses (`replace` with single-character patterns, `lower`, `split()`,
  `startswith`, slicing, substring test, `splitlines`) are implemented as
  structurally recursive functions over `List Char` so that every definition
  is executable and kernel-reducible.
- A Python `dict` built by insertion is an association list with Python's
  semantics: inserting an existing key updates the value in place (keeping
  the key's original position), inserting a fresh key appends at the end.
  `dict.values()` is `List.map Prod.snd`, dict truthiness is non-emptiness.
- Catalog variants and target infos are structures mirroring the JSON
  objects and the `Uf2TargetInfo` dataclass.
- The `MappingCombobox` widget lives in `thonny/ui_utils.py`, which is not
  part of the sources here; it is modelled from the spec (see its doc
  comment) as a mapping plus an optional current selection.
- The reactive `update_ui` step of `BaseFlasher` is a pure state transition
  on an explicit `FlasherState`, taking the detected-targets mapping (the
  result of `find_targets`) as the environment of one refresh tick.
-/

set_option autoImplicit false

namespace Flasher

universe u

/-- One element of a variant's `downloads` array in the catalog JSON:
a version string and a download URL. -/
structure Download where
  version : String
  url : String
deriving DecidableEq

/-- One variant object of the downloaded catalog JSON array: `vendor`,
`model`, `family` are required strings, `title` is optional, `info_url`
is the info link, `downloads` is the ordered downloads array. -/
structure Variant where
  vendor : String
  model : String
  family : String
  title : Option String
  info_url : String
  downloads : List Download
deriving DecidableEq

/-- The `Uf2TargetInfo` dataclass: display title, volume path, and the
optional inferred `family`, declared `model` and `board_id`. -/
structure Uf2TargetInfo where
  title : String
  path : String
  family : Option String
  model : Option String
  board_id : Option String
deriving DecidableEq

/-- Python dict insertion `m[k] = v`: if `k` is already a key, its value is
updated in place (position kept); otherwise the pair is appended. -/
def dictInsert {α : Type u} (m : List (String × α)) (k : String) (v : α) :
    List (String × α) :=
  match m with
  | [] => [(k, v)]
  | (k', v') :: rest =>
    if k' = k then (k, v) :: rest else (k', v') :: dictInsert rest k v

/-- A Python dict built by inserting the pairs of `l` left to right into an
initially empty dict (the semantics of a dict comprehension). -/
def dictOfList {α : Type u} (l : List (String × α)) : List (String × α) :=
  l.foldl (fun m kv => dictInsert m kv.1 kv.2) []

/-- The keys of a modelled dict, in order. -/
def dictKeys {α : Type u} (m : List (String × α)) : List String :=
  m.map Prod.fst

/-- Python dict lookup `m[k]` (as an `Option`): value of the first entry
with key `k`. -/
def dictGet {α : Type u} : List (String × α) → String → Option α
  | [], _ => none
  | (k, v) :: rest, k' => if k = k' then some v else dictGet rest k'

/-- Python `str.replace(c, r)` for a single-character pattern `c`: every
occurrence of `c` is replaced by the string `r`.  All `replace` calls in the
source use single-character patterns. -/
def replaceChar (c : Char) (r : List Char) : List Char → List Char
  | [] => []
  | x :: rest => (if x = c then r else [x]) ++ replaceChar c r rest

/-- Python `str.split()` with no argument: split on runs of whitespace,
producing no empty words.  `acc` holds the (reversed) current word. -/
def splitWsAux : List Char → List Char → List (List Char)
  | [], acc => if acc = [] then [] else [acc.reverse]
  | c :: rest, acc =>
    if c.isWhitespace then
      if acc = [] then splitWsAux rest [] else acc.reverse :: splitWsAux rest []
    else splitWsAux rest (c :: acc)

/-- Python `str.split()` on a string. -/
def splitWs (s : List Char) : List (List Char) :=
  splitWsAux s []

/-- Python `str.splitlines()` restricted to `"\n"` line breaks (the only
line break the modelled properties exercise): splits at newlines, without a
trailing empty line. -/
def splitLinesAux : List Char → List Char → List (List Char)
  | [], acc => if acc = [] then [] else [acc.reverse]
  | c :: rest, acc =>
    if c = '\n' then acc.reverse :: splitLinesAux rest []
    else splitLinesAux rest (c :: acc)

/-- Python `content.splitlines()` as a list of strings. -/
def pySplitlines (s : String) : List String :=
  (splitLinesAux s.toList []).map (fun l => String.mk l)

/-- Python `s.startswith(p)`. -/
def pyStartsWith (s p : String) : Bool :=
  p.toList.isPrefixOf s.toList

/-- Python `s.lower()` (the strings involved are ASCII, where Python's
`lower` agrees with `Char.toLower`). -/
def pyLower (s : List Char) : List Char :=
  s.map Char.toLower

/-- Python `sub in s`: substring test (`sub` occurs contiguously in `s`). -/
def containsSub : List Char → List Char → Bool
  | [], sub => sub.isEmpty
  | x :: rest, sub => sub.isPrefixOf (x :: rest) || containsSub rest sub

/-- Python character slicing `s[n:]`. -/
def dropChars (s : String) (n : Nat) : String :=
  String.mk (s.toList.drop n)

/-- The module-level `find_uf2_property`: the first line starting with
`prop_name + ": "` yields the remainder of that line; otherwise `None`. -/
def findUf2Property (lines : List String) (propName : String) : Option String :=
  match lines with
  | [] => none
  | line :: rest =>
    if pyStartsWith line (propName ++ ": ") then
      some (dropChars line (propName ++ ": ").length)
    else findUf2Property rest propName

/-- The normalized word set of `_extract_normalized_words`:
`text.replace("_", " ").replace("-", "").lower().split()` as a set. -/
def extractNormalizedWords (text : String) : Finset String :=
  ((splitWs (pyLower (replaceChar '-' [] (replaceChar '_' [' '] text.toList)))).map
    (fun l => String.mk l)).toFinset

/-- `_create_variant_description`: `vendor + " • " + get("title", model)`. -/
def createVariantDescription (v : Variant) : String :=
  v.vendor ++ " • " ++ v.title.getD v.model

/-- `_variant_is_meant_for_target`: false without a target family, false
when the variant family does not start with the target family, false
without a target model; otherwise the two word-set comparisons. -/
def variantIsMeantForTarget (variant : Variant) (target : Uf2TargetInfo) : Bool :=
  match target.family with
  | none => false
  | some tf =>
    if !pyStartsWith variant.family tf then false
    else
      match target.model with
      | none => false
      | some tm =>
        decide (extractNormalizedWords tm = extractNormalizedWords variant.model) ||
          decide (extractNormalizedWords (tm ++ " " ++ variant.vendor) =
            extractNormalizedWords (variant.model ++ " " ++ variant.vendor))

/-- The dict `{self._create_variant_description(v): v for v in variants}`
built in `_handle_new_target`. -/
def wholeMapping (variants : List Variant) : List (String × Variant) :=
  dictOfList (variants.map (fun v => (createVariantDescription v, v)))

/-- The filtered mapping of `_handle_new_target`: with a target family,
keep the entries whose variant family starts with it, falling back to the
whole mapping when that filter is empty; without a family, the whole
mapping. -/
def filteredMapping (target : Uf2TargetInfo) (variants : List Variant) :
    List (String × Variant) :=
  let whole := wholeMapping variants
  match target.family with
  | some tf =>
    let filtered := dictOfList (whole.filter (fun item => pyStartsWith item.2.family tf))
    if filtered = [] then whole else filtered
  | none => whole

/-- Modelled from the spec: `MappingCombobox` lives in `thonny/ui_utils.py`,
which is not among the sources here.  Per the spec's Selection Controller,
each picker is a mapping plus a current-selection slot; installing a new
mapping leaves the selection cleared unless the controller re-selects
("else leave unselected"). -/
structure MappingCombobox (α : Type u) where
  mapping : List (String × α)
  selected : Option α
deriving DecidableEq

/-- Modelled from the spec: `set_mapping` installs a new mapping, leaving
no selection until the controller selects one. -/
def MappingCombobox.setMapping {α : Type u} (_c : MappingCombobox α)
    (m : List (String × α)) : MappingCombobox α :=
  ⟨m, none⟩

/-- Modelled from the spec: `select_value` makes the given value the
current selection. -/
def MappingCombobox.selectValue {α : Type u} (c : MappingCombobox α) (v : α) :
    MappingCombobox α :=
  ⟨c.mapping, some v⟩

/-- Modelled from the spec: `select_none` clears the selection. -/
def MappingCombobox.selectNone {α : Type u} (c : MappingCombobox α) :
    MappingCombobox α :=
  ⟨c.mapping, none⟩

/-- Modelled from the spec: `get_selected_value` returns the current
selection, absent when nothing is selected. -/
def MappingCombobox.getSelectedValue {α : Type u} (c : MappingCombobox α) :
    Option α :=
  c.selected

/-- `_handle_new_target`: install the filtered mapping on the variant
combobox, then select the unique exact match if there is exactly one,
else re-select the previous variant if it is still among the filtered
values. -/
def handleNewTarget (target : Uf2TargetInfo) (variants : List Variant)
    (variantCombo : MappingCombobox Variant) : MappingCombobox Variant :=
  let filtered := filteredMapping target variants
  let prevVariant := variantCombo.getSelectedValue
  let c := variantCombo.setMapping filtered
  let matchList := (filtered.map Prod.snd).filter
    (fun v => variantIsMeantForTarget v target)
  match matchList with
  | [m] => c.selectValue m
  | _ =>
    match prevVariant with
    | some pv => if pv ∈ filtered.map Prod.snd then c.selectValue pv else c
    | none => c

/-- `_handle_new_variant`: rebuild the versions mapping
`{d["version"]: d["url"] for d in variant["downloads"]}`, then select the
first value if the mapping is non-empty, else clear the selection. -/
def handleNewVariant (variant : Variant) (versionCombo : MappingCombobox String) :
    MappingCombobox String :=
  let versionsMapping := dictOfList (variant.downloads.map (fun d => (d.version, d.url)))
  let c := versionCombo.setMapping versionsMapping
  match versionsMapping with
  | [] => c.selectNone
  | e :: _ => c.selectValue e.2

/-- `show_new_targets`: install the targets mapping; auto-select the sole
target when there is exactly one, else clear the selection. -/
def showNewTargets (targets : List (String × Uf2TargetInfo))
    (combo : MappingCombobox Uf2TargetInfo) : MappingCombobox Uf2TargetInfo :=
  let c := combo.setMapping targets
  match targets with
  | [t] => c.selectValue t.2
  | _ => c.selectNone

/-- The mutable state of `BaseFlasher` touched by the refresh logic:
the downloaded catalog, the two "last handled" markers, and the three
comboboxes. -/
structure FlasherState where
  downloadedVariants : List Variant
  lastHandledTarget : Option Uf2TargetInfo
  lastHandledVariant : Option Variant
  targetCombo : MappingCombobox Uf2TargetInfo
  variantCombo : MappingCombobox Variant
  versionCombo : MappingCombobox String
deriving DecidableEq

/-- Step of `update_ui` at lines 89-92: rescan targets; when they differ
from the displayed mapping, show them and reset the last-handled-target
marker.  `targets` is the result of `find_targets` on this tick. -/
def refreshTargets (s : FlasherState) (targets : List (String × Uf2TargetInfo)) :
    FlasherState :=
  if targets = s.targetCombo.mapping then s
  else { s with targetCombo := showNewTargets targets s.targetCombo,
                lastHandledTarget := none }

/-- Step of `update_ui` at lines 94-101: with no selected target, clear the
variant combobox; with a newly selected target and a non-empty catalog,
handle it and update the markers. -/
def refreshVariants (s : FlasherState) : FlasherState :=
  match s.targetCombo.getSelectedValue with
  | none => { s with variantCombo := (s.variantCombo.setMapping []).selectNone }
  | some t =>
    if some t ≠ s.lastHandledTarget ∧ s.downloadedVariants ≠ [] then
      { s with variantCombo := handleNewTarget t s.downloadedVariants s.variantCombo,
               lastHandledTarget := some t,
               lastHandledVariant := none }
    else s

/-- Step of `update_ui` at lines 104-110: with no selected variant, clear
the version combobox; with a newly selected variant, handle it and update
the marker. -/
def refreshVersions (s : FlasherState) : FlasherState :=
  match s.variantCombo.getSelectedValue with
  | none => { s with versionCombo := (s.versionCombo.selectNone).setMapping [] }
  | some v =>
    if some v ≠ s.lastHandledVariant then
      { s with versionCombo := handleNewVariant v s.versionCombo,
               lastHandledVariant := some v }
    else s

/-- One idle-state refresh tick of `update_ui` (the display-label updates
`_update_target_info` / `_update_variant_info` do not change this state and
are modelled separately as pure views). -/
def updateUi (s : FlasherState) (targets : List (String × Uf2TargetInfo)) :
    FlasherState :=
  refreshVersions (refreshVariants (refreshTargets s targets))

/-- The text computed by `_update_variant_info`: the downloading message
whenever the stored catalog list is empty; else the selected variant's info
URL; else a count prompt when variants are listed; else blank. -/
def variantInfoText (s : FlasherState) : String :=
  if s.downloadedVariants = [] then "[downloading variants info ...]"
  else
    match s.variantCombo.getSelectedValue with
    | some v => v.info_url
    | none =>
      if s.variantCombo.mapping ≠ [] then
        "[select one from " ++ toString s.variantCombo.mapping.length ++ " variants]"
      else ""

/-- The successful tail of `_download_variants` (line 315): the fetched and
parsed JSON array replaces `_downloaded_variants`.  No other state records
that the fetch finished. -/
def downloadVariantsSuccess (s : FlasherState) (fetched : List Variant) :
    FlasherState :=
  { s with downloadedVariants := fetched }

/-- The failing branch of `_download_variants`: the exception handler logs
and shows an error but leaves `_downloaded_variants` (and all state
modelled here) unchanged. -/
def downloadVariantsFailure (s : FlasherState) : FlasherState :=
  s

/-- The state right after `BaseFlasher.__init__`: empty catalog, no
markers, empty comboboxes. -/
def initialState : FlasherState :=
  ⟨[], none, none, ⟨[], none⟩, ⟨[], none⟩, ⟨[], none⟩⟩

/-- The normalized content of `_create_target_info`:
`info_content.lower().replace(" ", "").replace("_", "").replace("-", "")`. -/
def normalizeContent (content : String) : List Char :=
  replaceChar '-' [] (replaceChar '_' [] (replaceChar ' ' [] (pyLower content.toList)))

/-- The fixed keyword list scanned by `_create_target_info`, including the
duplicated final entry. -/
def familyKeywords : List String :=
  ["samd21", "samd51", "nrf51", "nrf52", "esp32s3", "esp32s3"]

/-- The `for ... else` keyword scan of `_create_target_info`: the first
keyword occurring in the normalized content, else `None`. -/
def scanKeywords (normalized : List Char) : List String → Option String
  | [] => none
  | k :: rest =>
    if containsSub normalized k.toList then some k else scanKeywords normalized rest

/-- Family inference of `_create_target_info` (lines 280-288), applied to
the normalized content. -/
def inferFamily (content : String) : Option String :=
  if containsSub (normalizeContent content) "boardid:rpirp2".toList then some "rp2"
  else scanKeywords (normalizeContent content) familyKeywords

/-- One volume as seen by `find_targets`: its mount path, whether
`INFO_UF2.TXT` exists at its root, and the outcome of reading that file
(its content, or an error such as the disk being ejected mid-read). -/
structure Volume where
  path : String
  hasInfoFile : Bool
  readInfo : Except Unit String

/-- `_describe_target_path` on a non-Windows platform: the path itself
(the `win32` branch calls `get_win_volume_name`, which is not among the
sources here). -/
def describeTargetPath (path : String) : String :=
  path

/-- `_create_target_info`: read `INFO_UF2.TXT` (propagating a read error),
extract `Model` and `Board-ID`, infer the family, and build the record. -/
def createTargetInfo (vol : Volume) : Except Unit Uf2TargetInfo :=
  match vol.readInfo with
  | Except.error e => Except.error e
  | Except.ok content =>
    let infoLines := pySplitlines content
    Except.ok
      { title := describeTargetPath vol.path
        path := vol.path
        family := inferFamily content
        model := findUf2Property infoLines "Model"
        board_id := findUf2Property infoLines "Board-ID" }

/-- `find_targets`: candidate volumes are exactly those with an
`INFO_UF2.TXT` at the root; each candidate's target info is inserted under
its title, and a volume whose info creation raises is logged and skipped
while the scan continues. -/
def findTargets (volumes : List Volume) : List (String × Uf2TargetInfo) :=
  let paths := volumes.filter (fun v => v.hasInfoFile)
  paths.foldl
    (fun result vol =>
      match createTargetInfo vol with
      | Except.ok info => dictInsert result info.title info
      | Except.error _ => result)
    []

/-- The per-volume outcome of one `find_targets` loop iteration: the
`(title, info)` entry the volume contributes, or nothing when its metadata
read raises. -/
def targetEntry (v : Volume) : Option (String × Uf2TargetInfo) :=
  match createTargetInfo v with
  | Except.ok info => some (info.title, info)
  | Except.error _ => none

/-- A catalog variant used as a concrete test vector: its model string
carries the vendor name while the matching target's model does not. -/
def sampleVariant : Variant :=
  ⟨"Vendor X", "Vendor X Board", "rp2040", none, "https://example.com/info",
    [⟨"1.0", "a"⟩, ⟨"1.1", "b"⟩]⟩

/-- A second catalog variant of an unrelated family. -/
def otherVariant : Variant :=
  ⟨"Acme", "Gadget", "samd21", none, "https://example.com/other", []⟩

/-- A detected target whose family is a strict prefix of
`sampleVariant.family` and whose model omits the vendor name. -/
def sampleTarget : Uf2TargetInfo :=
  ⟨"/vol", "/vol", some "rp2", some "X Board", some "RPI-RP2"⟩

/-- A detected target whose family matches no catalog family prefix. -/
def targetZzz : Uf2TargetInfo :=
  ⟨"/z", "/z", some "zzz", none, none⟩

/-- First of two catalog variants sharing vendor and title-or-model. -/
def dupVariantA : Variant :=
  ⟨"Vendor X", "Vendor X Board", "rp2040", none, "https://example.com/a", []⟩

/-- Second of two catalog variants sharing vendor and title-or-model with
`dupVariantA` but differing elsewhere. -/
def dupVariantB : Variant :=
  ⟨"Vendor X", "Vendor X Board", "esp32s3", none, "https://example.com/b", []⟩

/-- A volume with the marker file whose metadata reads successfully. -/
def volOk : Volume :=
  ⟨"/vol1", true, Except.ok "Model: Foo Board\nBoard-ID: abc-1"⟩

/-- A volume with the marker file whose metadata read raises (e.g. the
disk was ejected mid-read). -/
def volErr : Volume :=
  ⟨"/vol2", true, Except.error ()⟩

/-- A volume with no `INFO_UF2.TXT` at its root. -/
def volPlain : Volume :=
  ⟨"/vol3", false, Except.ok ""⟩

section DictLemmas

variable {α : Type u}

theorem dictKeys_dictInsert (m : List (String × α)) (k : String) (v : α) :
    dictKeys (dictInsert m k v) =
      if k ∈ dictKeys m then dictKeys m else dictKeys m ++ [k] := by
  induction m with
  | nil => simp [dictInsert, dictKeys]
  | cons e rest ih =>
    obtain ⟨k', v'⟩ := e
    by_cases h : k' = k
    · subst h
      simp [dictInsert, dictKeys]
    · have h1 : dictInsert ((k', v') :: rest) k v = (k', v') :: dictInsert rest k v := by
        simp [dictInsert, h]
      have h2 : dictKeys ((k', v') :: dictInsert rest k v) =
          k' :: dictKeys (dictInsert rest k v) := rfl
      have h3 : dictKeys ((k', v') :: rest) = k' :: dictKeys rest := rfl
      rw [h1, h2, h3, ih]
      by_cases hm : k ∈ dictKeys rest
      · rw [if_pos hm, if_pos (List.mem_cons_of_mem _ hm)]
      · rw [if_neg hm, if_neg ?_]
        · rfl
        · simp only [List.mem_cons, hm, or_false]
          exact Ne.symm h

theorem dictInsert_of_not_mem_keys (m : List (String × α)) (k : String) (v : α)
    (h : k ∉ dictKeys m) : dictInsert m k v = m ++ [(k, v)] := by
  induction m with
  | nil => rfl
  | cons e rest ih =>
    obtain ⟨k', v'⟩ := e
    simp only [dictKeys, List.map_cons, List.mem_cons, not_or] at h
    simp [dictInsert, Ne.symm h.1, ih (by simpa [dictKeys] using h.2)]

theorem nodup_dictKeys_dictInsert (m : List (String × α)) (k : String) (v : α)
    (h : (dictKeys m).Nodup) : (dictKeys (dictInsert m k v)).Nodup := by
  rw [dictKeys_dictInsert]
  split
  · exact h
  · next hk =>
    refine List.Nodup.append h (List.nodup_singleton k) ?_
    intro a ha hb
    simp only [List.mem_singleton] at hb
    exact hk (hb ▸ ha)

theorem nodup_dictKeys_foldl (l : List (String × α)) :
    ∀ acc : List (String × α), (dictKeys acc).Nodup →
      (dictKeys (l.foldl (fun m kv => dictInsert m kv.1 kv.2) acc)).Nodup := by
  induction l with
  | nil => intro acc h; exact h
  | cons e rest ih =>
    intro acc h
    exact ih _ (nodup_dictKeys_dictInsert _ _ _ h)

theorem nodup_dictKeys_dictOfList (l : List (String × α)) :
    (dictKeys (dictOfList l)).Nodup :=
  nodup_dictKeys_foldl l [] (by simp [dictKeys])

theorem foldl_dictInsert_of_nodup (l : List (String × α)) :
    ∀ acc : List (String × α), (dictKeys (acc ++ l)).Nodup →
      l.foldl (fun m kv => dictInsert m kv.1 kv.2) acc = acc ++ l := by
  induction l with
  | nil => intro acc _; simp
  | cons e rest ih =>
    intro acc h
    obtain ⟨k, v⟩ := e
    have hkeys : dictKeys (acc ++ (k, v) :: rest) =
        dictKeys acc ++ k :: dictKeys rest := by
      simp [dictKeys]
    rw [hkeys] at h
    have hk : k ∉ dictKeys acc := by
      intro hmem
      exact List.disjoint_of_nodup_append h hmem (by simp)
    simp only [List.foldl_cons]
    rw [dictInsert_of_not_mem_keys _ _ _ hk]
    have hrec := ih (acc ++ [(k, v)]) (by simpa [dictKeys] using h)
    rw [hrec]
    simp

theorem dictOfList_eq_self (l : List (String × α)) (h : (dictKeys l).Nodup) :
    dictOfList l = l := by
  have := foldl_dictInsert_of_nodup l [] (by simpa [dictKeys] using h)
  simpa [dictOfList] using this

theorem dictInsert_ne_nil (m : List (String × α)) (k : String) (v : α) :
    dictInsert m k v ≠ [] := by
  cases m with
  | nil => simp [dictInsert]
  | cons e rest =>
    obtain ⟨k', v'⟩ := e
    simp only [dictInsert]
    split <;> simp

theorem foldl_dictInsert_ne_nil (l : List (String × α)) :
    ∀ acc : List (String × α), acc ≠ [] →
      l.foldl (fun m kv => dictInsert m kv.1 kv.2) acc ≠ [] := by
  induction l with
  | nil => intro acc h; exact h
  | cons e rest ih =>
    intro acc _
    exact ih _ (dictInsert_ne_nil _ _ _)

theorem dictOfList_ne_nil (l : List (String × α)) (h : l ≠ []) :
    dictOfList l ≠ [] := by
  cases l with
  | nil => exact absurd rfl h
  | cons e rest =>
    simp only [dictOfList, List.foldl_cons]
    exact foldl_dictInsert_ne_nil rest _ (dictInsert_ne_nil _ _ _)

theorem dictGet_dictInsert (m : List (String × α)) (k k' : String) (v : α) :
    dictGet (dictInsert m k v) k' = if k = k' then some v else dictGet m k' := by
  induction m with
  | nil => simp [dictInsert, dictGet]
  | cons e rest ih =>
    obtain ⟨a, b⟩ := e
    by_cases hak : a = k
    · subst hak
      simp only [dictInsert, if_pos rfl]
      by_cases hk' : a = k'
      · simp [dictGet, hk']
      · simp [dictGet, hk']
    · simp only [dictInsert, if_neg hak]
      show (if a = k' then some b else dictGet (dictInsert rest k v) k') = _
      rw [ih]
      by_cases h1 : a = k' <;> by_cases h2 : k = k'
      · exact absurd (h1.trans h2.symm) hak
      · simp [dictGet, h1, h2]
      · simp [dictGet, h1, h2]
      · simp [dictGet, h1, h2]

theorem getLast?_cons_isSome {β : Type u} (x : β) (l : List β) :
    ∃ e, (x :: l).getLast? = some e := by
  induction l generalizing x with
  | nil => exact ⟨x, rfl⟩
  | cons y rest ih =>
    obtain ⟨e, he⟩ := ih y
    exact ⟨e, (List.getLast?_cons_cons).trans he⟩

theorem dictGet_foldl (l : List (String × α)) (k : String) :
    ∀ acc : List (String × α),
      dictGet (l.foldl (fun m kv => dictInsert m kv.1 kv.2) acc) k =
        ((l.filter (fun e => e.1 = k)).getLast?).elim (dictGet acc k)
          (fun e => some e.2) := by
  induction l with
  | nil => intro acc; simp
  | cons e rest ih =>
    intro acc
    obtain ⟨a, b⟩ := e
    simp only [List.foldl_cons]
    rw [ih (dictInsert acc a b)]
    by_cases hak : a = k
    · subst hak
      have hfc : ((a, b) :: rest).filter (fun e => e.1 = a) =
          (a, b) :: rest.filter (fun e => e.1 = a) := by
        simp [List.filter_cons]
      rw [hfc]
      cases hfil : rest.filter (fun e => e.1 = a) with
      | nil =>
        simp [dictGet_dictInsert]
      | cons f fs =>
        obtain ⟨g, hg⟩ := getLast?_cons_isSome f fs
        rw [List.getLast?_cons_cons, hg]
        simp
    · have hfc : ((a, b) :: rest).filter (fun e => e.1 = k) =
          rest.filter (fun e => e.1 = k) := by
        simp [List.filter_cons, hak]
      rw [hfc]
      cases hfil : rest.filter (fun e => e.1 = k) with
      | nil =>
        simp [dictGet_dictInsert, hak]
      | cons f fs =>
        obtain ⟨g, hg⟩ := getLast?_cons_isSome f fs
        rw [hg]
        simp

theorem dictGet_dictOfList (l : List (String × α)) (k : String) :
    dictGet (dictOfList l) k =
      ((l.filter (fun e => e.1 = k)).getLast?).map Prod.snd := by
  have h := dictGet_foldl l k []
  cases hL : (l.filter (fun e => e.1 = k)).getLast? with
  | none => simpa [dictOfList, hL, dictGet] using h
  | some e => simpa [dictOfList, hL, dictGet] using h

theorem mem_dictKeys_of_dictGet (m : List (String × α)) (k : String) (x : α)
    (h : dictGet m k = some x) : k ∈ dictKeys m := by
  induction m with
  | nil => simp [dictGet] at h
  | cons e rest ih =>
    obtain ⟨a, b⟩ := e
    by_cases hak : a = k
    · simp [dictKeys, hak]
    · simp only [dictGet, if_neg hak] at h
      simp only [dictKeys, List.map_cons, List.mem_cons]
      exact Or.inr (ih h)

theorem filter_key_eq_nil (m : List (String × α)) (k : String)
    (h : k ∉ dictKeys m) : m.filter (fun e => e.1 = k) = [] := by
  induction m with
  | nil => rfl
  | cons e rest ih =>
    obtain ⟨a, b⟩ := e
    simp only [dictKeys, List.map_cons, List.mem_cons, not_or] at h
    simp [List.filter_cons, Ne.symm h.1, ih (by simpa [dictKeys] using h.2)]

theorem length_filter_key (m : List (String × α)) (k : String)
    (hnd : (dictKeys m).Nodup) (hmem : k ∈ dictKeys m) :
    (m.filter (fun e => e.1 = k)).length = 1 := by
  induction m with
  | nil => simp [dictKeys] at hmem
  | cons e rest ih =>
    obtain ⟨a, b⟩ := e
    simp only [dictKeys, List.map_cons, List.nodup_cons] at hnd
    by_cases hak : a = k
    · subst hak
      have hfil : rest.filter (fun e => e.1 = a) = [] :=
        filter_key_eq_nil rest a (by simpa [dictKeys] using hnd.1)
      simp [List.filter_cons, hfil]
    · have hmem' : k ∈ dictKeys rest := by
        simp only [dictKeys, List.map_cons, List.mem_cons] at hmem
        rcases hmem with h | h
        · exact absurd h.symm hak
        · simpa [dictKeys] using h
      have := ih (by simpa [dictKeys] using hnd.2) hmem'
      simpa [List.filter_cons, hak] using this

end DictLemmas

theorem isPrefixOf_length_le {β : Type u} [BEq β] (l₁ l₂ : List β)
    (h : l₁.isPrefixOf l₂ = true) : l₁.length ≤ l₂.length := by
  induction l₁ generalizing l₂ with
  | nil => simp
  | cons x xs ih =>
    cases l₂ with
    | nil => simp [List.isPrefixOf] at h
    | cons y ys =>
      simp only [List.isPrefixOf, Bool.and_eq_true] at h
      simpa using Nat.succ_le_succ (ih ys h.2)

/-- C10: For every list of lines and property name P, the metadata
property lookup returns the text after the prefix "P: " of the first line
starting with that prefix (later duplicates ignored); a line equal to "P:"
without the trailing space does not match, nor does a line whose property
name differs in letter case; with no matching line the result is absent. -/
theorem findUf2Property_spec (lines : List String) (propName : String) :
    findUf2Property lines propName =
      (lines.find? (fun l => pyStartsWith l (propName ++ ": "))).map
        (fun l => dropChars l (propName ++ ": ").length)
    ∧ pyStartsWith (propName ++ ":") (propName ++ ": ") = false
    ∧ findUf2Property ["Model:", "model: a", "Model: first", "Model: second"]
        "Model" = some "first" := by
  refine ⟨?_, ?_, by decide⟩
  · induction lines with
    | nil => rfl
    | cons line rest ih =>
      by_cases h : pyStartsWith line (propName ++ ": ") = true
      · simp [findUf2Property, h, List.find?_cons_of_pos]
      · have h' : pyStartsWith line (propName ++ ": ") = false := by
          simpa using h
        simp [findUf2Property, h', List.find?_cons_of_neg, ih]
  · rw [pyStartsWith]
    apply Bool.eq_false_iff.mpr
    intro h'
    have hle := isPrefixOf_length_le _ _ h'
    have e1 : (propName ++ ": ").toList.length = propName.toList.length + 2 := by
      show ((propName ++ ": ").data).length = propName.data.length + 2
      rw [String.data_append]
      simp
    have e2 : (propName ++ ":").toList.length = propName.toList.length + 1 := by
      show ((propName ++ ":").data).length = propName.data.length + 1
      rw [String.data_append]
      simp
    rw [e1, e2] at hle
    omega

theorem scanKeywords_eq_find? (normalized : List Char) (ks : List String) :
    scanKeywords normalized ks =
      ks.find? (fun k => containsSub normalized k.toList) := by
  induction ks with
  | nil => rfl
  | cons k rest ih =>
    simp only [scanKeywords]
    by_cases h : containsSub normalized k.toList = true
    · rw [if_pos h]
      exact (List.find?_cons_of_pos rest h).symm
    · rw [if_neg h, ih]
      exact (List.find?_cons_of_neg rest h).symm

/-- C6: Family inference works on the normalized content (lowercased, with
spaces, underscores and hyphens stripped): containing "boardid:rpirp2"
forces family "rp2" regardless of the keyword scan; otherwise the family is
the first element of the fixed keyword list (duplicate last entry
preserved) occurring as a raw substring, scanned in list order, and absent
when none occurs. -/
theorem inferFamily_spec (content : String) :
    (containsSub (normalizeContent content) "boardid:rpirp2".toList = true →
      inferFamily content = some "rp2")
    ∧ (containsSub (normalizeContent content) "boardid:rpirp2".toList = false →
      inferFamily content =
        familyKeywords.find?
          (fun k => containsSub (normalizeContent content) k.toList)) := by
  constructor
  · intro h
    simp only [inferFamily]
    rw [h]
    simp
  · intro h
    simp only [inferFamily]
    rw [h]
    simp [scanKeywords_eq_find?]

/-- Witness for C6: content "Board-ID: RPI-RP2" normalizes to contain the
rp2 marker and yields family "rp2". -/
theorem inferFamily_spec_witness :
    containsSub (normalizeContent "Board-ID: RPI-RP2")
        "boardid:rpirp2".toList = true
    ∧ inferFamily "Board-ID: RPI-RP2" = some "rp2" :=
  ⟨by decide, (inferFamily_spec "Board-ID: RPI-RP2").1 (by decide)⟩

theorem handleNewVariant_eq (variant : Variant) (combo : MappingCombobox String)
    (h : (variant.downloads.map Download.version).Nodup) :
    handleNewVariant variant combo =
      ⟨variant.downloads.map (fun d => (d.version, d.url)),
        (variant.downloads.head?).map (fun d => d.url)⟩ := by
  have hkeys : (dictKeys (variant.downloads.map (fun d => (d.version, d.url)))).Nodup := by
    simpa [dictKeys, List.map_map, Function.comp] using h
  have hself : dictOfList (variant.downloads.map (fun d => (d.version, d.url))) =
      variant.downloads.map (fun d => (d.version, d.url)) :=
    dictOfList_eq_self _ hkeys
  cases hd : variant.downloads with
  | nil =>
    simp [handleNewVariant, hd, dictOfList, MappingCombobox.setMapping,
      MappingCombobox.selectNone]
  | cons d rest =>
    rw [hd] at hself
    simp only [handleNewVariant, hd, List.map_cons, MappingCombobox.setMapping,
      MappingCombobox.selectValue]
    simp only [List.map_cons] at hself
    rw [hself]
    rfl

/-- C8: Handling a newly selected variant rebuilds the version list as a
version-to-URL mapping in the order of the variant's downloads sequence
(stated for downloads with pairwise distinct version strings, where the
dict comprehension collapses nothing), auto-selecting the first entry's
URL when any download exists and selecting nothing otherwise. -/
theorem handleNewVariant_spec (variant : Variant) (combo : MappingCombobox String)
    (h : (variant.downloads.map Download.version).Nodup) :
    (handleNewVariant variant combo).mapping =
      variant.downloads.map (fun d => (d.version, d.url))
    ∧ (variant.downloads = [] → (handleNewVariant variant combo).selected = none)
    ∧ (∀ d rest, variant.downloads = d :: rest →
        (handleNewVariant variant combo).selected = some d.url) := by
  have he := handleNewVariant_eq variant combo h
  refine ⟨by rw [he], ?_, ?_⟩
  · intro hnil
    rw [he]
    simp [hnil]
  · intro d rest hd
    rw [he]
    simp [hd]

/-- Witness for C8: for downloads `[("1.0","a"), ("1.1","b")]` the mapping
keeps catalog order and the URL "a" of the first entry is selected. -/
theorem handleNewVariant_spec_witness :
    (handleNewVariant sampleVariant ⟨[], none⟩).mapping =
      [("1.0", "a"), ("1.1", "b")]
    ∧ (handleNewVariant sampleVariant ⟨[], none⟩).selected = some "a" := by
  have h := handleNewVariant_spec sampleVariant ⟨[], none⟩ (by decide)
  exact ⟨h.1.trans (by decide), h.2.2 ⟨"1.0", "a"⟩ [⟨"1.1", "b"⟩] rfl⟩

theorem filter_pair_map (variants : List Variant) (d : String) :
    ((variants.map (fun v => (createVariantDescription v, v))).filter
        (fun e => e.1 = d)) =
      (variants.filter (fun v => createVariantDescription v = d)).map
        (fun v => (createVariantDescription v, v)) := by
  induction variants with
  | nil => rfl
  | cons v rest ih =>
    by_cases h : createVariantDescription v = d
    · simp [List.filter_cons, h, ih]
    · simp [List.filter_cons, h, ih]

/-- C9: The variant list is keyed by the description `vendor • title-or-
model`; two variants with equal description collapse into a single entry
bound to the one appearing later in catalog order, so the earlier one is
not selectable. -/
theorem wholeMapping_duplicate_description (variants : List Variant) (d : String)
    (h : ∃ v ∈ variants, createVariantDescription v = d) :
    ((wholeMapping variants).filter (fun e => e.1 = d)).length = 1
    ∧ dictGet (wholeMapping variants) d =
        (variants.filter (fun v => createVariantDescription v = d)).getLast? := by
  obtain ⟨v, hv, hdesc⟩ := h
  have hdg : dictGet (wholeMapping variants) d =
      (variants.filter (fun v => createVariantDescription v = d)).getLast? := by
    rw [wholeMapping, dictGet_dictOfList, filter_pair_map, List.getLast?_map]
    cases (variants.filter (fun v => createVariantDescription v = d)).getLast? with
    | none => rfl
    | some g => rfl
  refine ⟨?_, hdg⟩
  have hfil_mem : v ∈ variants.filter (fun v => createVariantDescription v = d) := by
    simp [List.mem_filter, hv, hdesc]
  obtain ⟨g, hg⟩ : ∃ g,
      (variants.filter (fun v => createVariantDescription v = d)).getLast? = some g := by
    cases hfl : variants.filter (fun v => createVariantDescription v = d) with
    | nil =>
      rw [hfl] at hfil_mem
      exact absurd hfil_mem (List.not_mem_nil v)
    | cons f fs => exact getLast?_cons_isSome f fs
  have hmem : d ∈ dictKeys (wholeMapping variants) :=
    mem_dictKeys_of_dictGet _ _ g (hdg.trans hg)
  exact length_filter_key _ _ (nodup_dictKeys_dictOfList _) hmem

/-- Witness for C9: with two catalog variants sharing vendor and model,
the mapping holds one entry under their common description, bound to the
later variant. -/
theorem wholeMapping_duplicate_witness :
    dictGet (wholeMapping [dupVariantA, dupVariantB]) "Vendor X • Vendor X Board" =
      some dupVariantB
    ∧ ((wholeMapping [dupVariantA, dupVariantB]).filter
        (fun e => e.1 = "Vendor X • Vendor X Board")).length = 1 := by
  have h := wholeMapping_duplicate_description [dupVariantA, dupVariantB]
    "Vendor X • Vendor X Board" ⟨dupVariantA, by simp, by decide⟩
  exact ⟨h.2.trans (by decide), h.1⟩

/-- C3: The exact-match test is false without a target family, false when
the variant family does not start with the target family, false without a
target model; otherwise it is true exactly when the normalized word set of
the target model equals that of the variant model, or the word sets agree
after appending the variant vendor to both models. -/
theorem variantIsMeantForTarget_spec (variant : Variant) (target : Uf2TargetInfo) :
    (target.family = none → variantIsMeantForTarget variant target = false)
    ∧ (∀ tf, target.family = some tf → pyStartsWith variant.family tf = false →
        variantIsMeantForTarget variant target = false)
    ∧ (∀ tf, target.family = some tf → target.model = none →
        variantIsMeantForTarget variant target = false)
    ∧ (∀ tf tm, target.family = some tf → pyStartsWith variant.family tf = true →
        target.model = some tm →
        (variantIsMeantForTarget variant target = true ↔
          (extractNormalizedWords tm = extractNormalizedWords variant.model ∨
            extractNormalizedWords (tm ++ " " ++ variant.vendor) =
              extractNormalizedWords (variant.model ++ " " ++ variant.vendor)))) := by
  refine ⟨?_, ?_, ?_, ?_⟩
  · intro h
    simp [variantIsMeantForTarget, h]
  · intro tf h hs
    simp [variantIsMeantForTarget, h, hs]
  · intro tf h hm
    simp only [variantIsMeantForTarget, h, hm]
    split <;> rfl
  · intro tf tm hf hs hm
    simp only [variantIsMeantForTarget, hf, hs, hm, Bool.not_true, Bool.false_eq_true,
      if_false]
    simp [Bool.or_eq_true, decide_eq_true_iff]

/-- Witness for C3: with variant model "Vendor X Board", vendor "Vendor X"
and target model "X Board", the plain comparison fails but the
vendor-appended branch matches. -/
theorem variantIsMeantForTarget_witness :
    extractNormalizedWords "X Board" ≠ extractNormalizedWords "Vendor X Board"
    ∧ variantIsMeantForTarget sampleVariant sampleTarget = true :=
  ⟨by decide,
    ((variantIsMeantForTarget_spec sampleVariant sampleTarget).2.2.2 "rp2" "X Board"
      rfl (by decide) rfl).mpr (Or.inr (by decide))⟩

/-- C2: With no target family the filtered mapping is the whole catalog
mapping; with a family it is exactly the entries whose variant family
starts with it, falling back to the whole mapping when that prefix filter
is empty; hence it is never empty when the catalog is non-empty. -/
theorem filteredMapping_spec (target : Uf2TargetInfo) (variants : List Variant)
    (h : variants ≠ []) :
    (target.family = none →
      filteredMapping target variants = wholeMapping variants)
    ∧ (∀ tf, target.family = some tf →
        filteredMapping target variants =
          (if (wholeMapping variants).filter
              (fun e => pyStartsWith e.2.family tf) = []
           then wholeMapping variants
           else (wholeMapping variants).filter
              (fun e => pyStartsWith e.2.family tf)))
    ∧ filteredMapping target variants ≠ [] := by
  have hwnd : (dictKeys (wholeMapping variants)).Nodup :=
    nodup_dictKeys_dictOfList _
  have hwne : wholeMapping variants ≠ [] := by
    apply dictOfList_ne_nil
    simpa using h
  have hfd : ∀ tf : String,
      dictOfList ((wholeMapping variants).filter
        (fun e => pyStartsWith e.2.family tf)) =
      (wholeMapping variants).filter (fun e => pyStartsWith e.2.family tf) := by
    intro tf
    apply dictOfList_eq_self
    exact List.Nodup.sublist
      (List.Sublist.map Prod.fst (List.filter_sublist _)) hwnd
  refine ⟨?_, ?_, ?_⟩
  · intro hf
    simp [filteredMapping, hf]
  · intro tf hf
    simp only [filteredMapping, hf]
    rw [hfd tf]
  · cases hf : target.family with
    | none => simpa [filteredMapping, hf] using hwne
    | some tf =>
      simp only [filteredMapping, hf]
      rw [hfd tf]
      split
      · exact hwne
      · next hne => exact hne

/-- Witness for C2: a target family "zzz" matching no catalog family
prefix falls back to the whole mapping, which is non-empty. -/
theorem filteredMapping_spec_witness :
    filteredMapping targetZzz [sampleVariant] = wholeMapping [sampleVariant]
    ∧ filteredMapping targetZzz [sampleVariant] ≠ [] := by
  have h := filteredMapping_spec targetZzz [sampleVariant] (by decide)
  exact ⟨(h.2.1 "zzz" rfl).trans (by decide), h.2.2⟩

theorem handleNewTarget_def (target : Uf2TargetInfo) (variants : List Variant)
    (combo : MappingCombobox Variant) :
    handleNewTarget target variants combo =
      (match ((filteredMapping target variants).map Prod.snd).filter
          (fun v => variantIsMeantForTarget v target) with
       | [m] => MappingCombobox.selectValue
           (combo.setMapping (filteredMapping target variants)) m
       | _ =>
         match combo.getSelectedValue with
         | some pv =>
           if pv ∈ (filteredMapping target variants).map Prod.snd then
             MappingCombobox.selectValue
               (combo.setMapping (filteredMapping target variants)) pv
           else combo.setMapping (filteredMapping target variants)
         | none => combo.setMapping (filteredMapping target variants)) := rfl

/-- C4: When a new target is handled, the auto-select policy holds: a
unique exact match in the filtered set becomes selected regardless of the
previous selection; otherwise a previous selection still present among the
filtered values stays selected; otherwise nothing is selected. -/
theorem handleNewTarget_spec (target : Uf2TargetInfo) (variants : List Variant)
    (combo : MappingCombobox Variant) :
    (handleNewTarget target variants combo).mapping = filteredMapping target variants
    ∧ (∀ m, ((filteredMapping target variants).map Prod.snd).filter
          (fun v => variantIsMeantForTarget v target) = [m] →
        (handleNewTarget target variants combo).selected = some m)
    ∧ (∀ pv, (((filteredMapping target variants).map Prod.snd).filter
          (fun v => variantIsMeantForTarget v target)).length ≠ 1 →
        combo.selected = some pv →
        pv ∈ (filteredMapping target variants).map Prod.snd →
        (handleNewTarget target variants combo).selected = some pv)
    ∧ (∀ pv, (((filteredMapping target variants).map Prod.snd).filter
          (fun v => variantIsMeantForTarget v target)).length ≠ 1 →
        combo.selected = some pv →
        pv ∉ (filteredMapping target variants).map Prod.snd →
        (handleNewTarget target variants combo).selected = none)
    ∧ ((((filteredMapping target variants).map Prod.snd).filter
          (fun v => variantIsMeantForTarget v target)).length ≠ 1 →
        combo.selected = none →
        (handleNewTarget target variants combo).selected = none) := by
  refine ⟨?_, ?_, ?_, ?_, ?_⟩
  · rw [handleNewTarget_def]
    split
    · rfl
    · split
      · split
        · rfl
        · rfl
      · rfl
  · intro m hm
    rw [handleNewTarget_def, hm]
    rfl
  · intro pv hlen hpv hmem
    rw [handleNewTarget_def]
    rcases hsc : ((filteredMapping target variants).map Prod.snd).filter
        (fun v => variantIsMeantForTarget v target) with _ | ⟨m0, _ | ⟨m1, ms⟩⟩
    · simp [MappingCombobox.getSelectedValue, hpv, hmem,
        MappingCombobox.selectValue, MappingCombobox.setMapping]
    · rw [hsc] at hlen
      simp at hlen
    · simp [MappingCombobox.getSelectedValue, hpv, hmem,
        MappingCombobox.selectValue, MappingCombobox.setMapping]
  · intro pv hlen hpv hmem
    rw [handleNewTarget_def]
    rcases hsc : ((filteredMapping target variants).map Prod.snd).filter
        (fun v => variantIsMeantForTarget v target) with _ | ⟨m0, _ | ⟨m1, ms⟩⟩
    · simp [MappingCombobox.getSelectedValue, hpv, hmem,
        MappingCombobox.selectValue, MappingCombobox.setMapping]
    · rw [hsc] at hlen
      simp at hlen
    · simp [MappingCombobox.getSelectedValue, hpv, hmem,
        MappingCombobox.selectValue, MappingCombobox.setMapping]
  · intro hlen hpv
    rw [handleNewTarget_def]
    rcases hsc : ((filteredMapping target variants).map Prod.snd).filter
        (fun v => variantIsMeantForTarget v target) with _ | ⟨m0, _ | ⟨m1, ms⟩⟩
    · simp [MappingCombobox.getSelectedValue, hpv, MappingCombobox.setMapping]
    · rw [hsc] at hlen
      simp at hlen
    · simp [MappingCombobox.getSelectedValue, hpv, MappingCombobox.setMapping]

/-- Witness for C4: with a unique exact match in the filtered set, that
match becomes selected even though a different variant was previously
selected. -/
theorem handleNewTarget_spec_witness :
    (handleNewTarget sampleTarget [sampleVariant, otherVariant]
      ⟨[], some otherVariant⟩).selected = some sampleVariant :=
  (handleNewTarget_spec sampleTarget [sampleVariant, otherVariant]
    ⟨[], some otherVariant⟩).2.1 sampleVariant (by decide)

theorem createTargetInfo_ok_path (v : Volume) (info : Uf2TargetInfo)
    (h : createTargetInfo v = Except.ok info) :
    info.title = v.path ∧ info.path = v.path := by
  cases hr : v.readInfo with
  | error e => simp [createTargetInfo, hr] at h
  | ok content =>
    simp only [createTargetInfo, hr, Except.ok.injEq] at h
    rw [← h]
    exact ⟨rfl, rfl⟩

theorem targetEntry_some (v : Volume) (e : String × Uf2TargetInfo)
    (h : targetEntry v = some e) :
    createTargetInfo v = Except.ok e.2 ∧ e.1 = v.path ∧ e.2.path = v.path := by
  cases hc : createTargetInfo v with
  | error err => simp [targetEntry, hc] at h
  | ok info =>
    simp only [targetEntry, hc, Option.some.injEq] at h
    obtain ⟨hpt, hpp⟩ := createTargetInfo_ok_path v info hc
    rw [← h]
    exact ⟨rfl, hpt, hpp⟩

theorem targetEntry_keys_sublist (l : List Volume) :
    ((l.filterMap targetEntry).map Prod.fst).Sublist (l.map Volume.path) := by
  induction l with
  | nil => simp
  | cons v rest ih =>
    cases he : targetEntry v with
    | none =>
      simp only [List.filterMap_cons, he, List.map_cons]
      exact ih.cons _
    | some e =>
      have h1 : e.1 = v.path := (targetEntry_some v e he).2.1
      simp only [List.filterMap_cons, he, List.map_cons, h1]
      exact ih.cons₂ _

theorem findTargets_foldl (l : List Volume) :
    ∀ acc : List (String × Uf2TargetInfo),
      (dictKeys acc ++ (l.filterMap targetEntry).map Prod.fst).Nodup →
      l.foldl
        (fun result vol =>
          match createTargetInfo vol with
          | Except.ok info => dictInsert result info.title info
          | Except.error _ => result)
        acc = acc ++ l.filterMap targetEntry := by
  induction l with
  | nil =>
    intro acc _
    simp
  | cons v rest ih =>
    intro acc h
    cases hc : createTargetInfo v with
    | error err =>
      have he : targetEntry v = none := by simp [targetEntry, hc]
      simp only [List.foldl_cons, hc]
      rw [ih acc (by simpa [List.filterMap_cons, he] using h)]
      simp [List.filterMap_cons, he]
    | ok info =>
      have he : targetEntry v = some (info.title, info) := by simp [targetEntry, hc]
      rw [List.filterMap_cons, he] at h
      have hkey : info.title ∉ dictKeys acc := by
        intro hmem
        exact List.disjoint_of_nodup_append h hmem (by simp)
      simp only [List.foldl_cons, hc]
      rw [dictInsert_of_not_mem_keys _ _ _ hkey]
      rw [ih (acc ++ [(info.title, info)])
        (by simpa [dictKeys, List.append_assoc] using h)]
      simp [List.filterMap_cons, he]

theorem findTargets_eq (volumes : List Volume)
    (h : (volumes.map Volume.path).Nodup) :
    findTargets volumes =
      (volumes.filter (fun v => v.hasInfoFile)).filterMap targetEntry := by
  have hsub1 : ((volumes.filter (fun v => v.hasInfoFile)).map Volume.path).Sublist
      (volumes.map Volume.path) :=
    List.Sublist.map _ (List.filter_sublist _)
  have hsub2 := targetEntry_keys_sublist (volumes.filter (fun v => v.hasInfoFile))
  have hnd : ((((volumes.filter (fun v => v.hasInfoFile)).filterMap
      targetEntry)).map Prod.fst).Nodup :=
    List.Nodup.sublist (hsub2.trans hsub1) h
  have hf := findTargets_foldl (volumes.filter (fun v => v.hasInfoFile)) []
    (by simpa [dictKeys] using hnd)
  simpa [findTargets] using hf

/-- C7: A volume enters the candidate list exactly when `INFO_UF2.TXT`
exists at its root; a volume whose metadata read raises is excluded from
the result while the scan continues, so every other readable marked volume
still appears (stated for volumes with pairwise distinct mount paths). -/
theorem findTargets_spec (volumes : List Volume)
    (h : (volumes.map Volume.path).Nodup) :
    findTargets volumes =
      (volumes.filter (fun v => v.hasInfoFile)).filterMap targetEntry
    ∧ (∀ v ∈ volumes, v.hasInfoFile = false →
        ∀ e ∈ findTargets volumes, e.2.path ≠ v.path)
    ∧ (∀ v ∈ volumes, createTargetInfo v = Except.error () →
        ∀ e ∈ findTargets volumes, e.2.path ≠ v.path)
    ∧ (∀ v ∈ volumes, v.hasInfoFile = true →
        ∀ info, createTargetInfo v = Except.ok info →
          (info.title, info) ∈ findTargets volumes) := by
  have heq := findTargets_eq volumes h
  have hmem : ∀ e ∈ findTargets volumes, ∃ w ∈ volumes,
      w.hasInfoFile = true ∧ createTargetInfo w = Except.ok e.2 ∧
        e.2.path = w.path := by
    intro e he
    rw [heq] at he
    obtain ⟨w, hw, hwe⟩ := List.mem_filterMap.mp he
    obtain ⟨hwv, hwf⟩ := List.mem_filter.mp hw
    obtain ⟨hok, _, hpath⟩ := targetEntry_some w e hwe
    exact ⟨w, hwv, by simpa using hwf, hok, hpath⟩
  refine ⟨heq, ?_, ?_, ?_⟩
  · intro v hv hmark e he hpath
    obtain ⟨w, hwv, hwf, _, hwp⟩ := hmem e he
    have : w = v :=
      List.inj_on_of_nodup_map h hwv hv (hwp ▸ hpath)
    rw [this] at hwf
    rw [hwf] at hmark
    exact Bool.true_eq_false.mp hmark
  · intro v hv herr e he hpath
    obtain ⟨w, hwv, _, hok, hwp⟩ := hmem e he
    have hwv' : w = v :=
      List.inj_on_of_nodup_map h hwv hv (hwp ▸ hpath)
    rw [hwv'] at hok
    rw [herr] at hok
    exact Except.noConfusion hok
  · intro v hv hmark info hok
    rw [heq]
    refine List.mem_filterMap.mpr ⟨v, List.mem_filter.mpr ⟨hv, by simp [hmark]⟩, ?_⟩
    simp [targetEntry, hok]

/-- Witness for C7: scanning a readable marked volume, a marked volume
whose read raises, and an unmarked volume yields exactly the readable
marked volume's entry; the erroring volume is absent. -/
theorem findTargets_spec_witness :
    (∀ e ∈ findTargets [volOk, volErr, volPlain], e.2.path ≠ "/vol2")
    ∧ ("/vol1",
        ⟨"/vol1", "/vol1", none, some "Foo Board", some "abc-1"⟩) ∈
        findTargets [volOk, volErr, volPlain] := by
  have h := findTargets_spec [volOk, volErr, volPlain] (by decide)
  constructor
  · exact fun e he => h.2.2.1 volErr (by simp) rfl e he
  · exact h.2.2.2 volOk (by simp) rfl
      ⟨"/vol1", "/vol1", none, some "Foo Board", some "abc-1"⟩ rfl

/-- C1 (counterexample): after the background fetch has finished
successfully with an empty JSON array, the very next variant-info refresh
still shows the downloading message — the code keeps no fetch-completed
flag and infers "still downloading" from `_downloaded_variants` being
empty. -/
theorem variantInfo_downloading_after_completed_fetch :
    variantInfoText (downloadVariantsSuccess initialState []) =
      "[downloading variants info ...]" := rfl

/-- C1 (amended): the dialog keeps no explicit fetch-completed flag;
`_update_variant_info` shows the downloading message whenever the stored
catalog list is empty, so a fetch that completed with an empty result
(or failed, leaving the list empty) still renders it, in every state. -/
theorem variantInfoText_empty_catalog (s : FlasherState) (fetched : List Variant)
    (h : fetched = []) :
    variantInfoText (downloadVariantsSuccess s fetched) =
      "[downloading variants info ...]"
    ∧ variantInfoText (downloadVariantsFailure s) = variantInfoText s := by
  subst h
  exact ⟨by simp [variantInfoText, downloadVariantsSuccess], rfl⟩

/-- Witness for C1 (amended), at a state whose combobox state is
non-trivial. -/
theorem variantInfoText_empty_catalog_witness :
    variantInfoText
      (downloadVariantsSuccess
        ⟨[otherVariant], none, none, ⟨[], none⟩,
          ⟨[("Acme • Gadget", otherVariant)], none⟩, ⟨[], none⟩⟩ []) =
      "[downloading variants info ...]" :=
  (variantInfoText_empty_catalog
    ⟨[otherVariant], none, none, ⟨[], none⟩,
      ⟨[("Acme • Gadget", otherVariant)], none⟩, ⟨[], none⟩⟩ [] rfl).1

theorem refreshTargets_mapping (s : FlasherState)
    (targets : List (String × Uf2TargetInfo)) :
    (refreshTargets s targets).targetCombo.mapping = targets := by
  unfold refreshTargets
  split
  · next h => exact h.symm
  · unfold showNewTargets
    cases targets with
    | nil => rfl
    | cons t ts =>
      cases ts with
      | nil => rfl
      | cons t2 ts2 => rfl

theorem refreshTargets_fixed (s : FlasherState)
    (targets : List (String × Uf2TargetInfo))
    (h : s.targetCombo.mapping = targets) :
    refreshTargets s targets = s := by
  unfold refreshTargets
  rw [if_pos h.symm]

theorem refreshVariants_preserves (s : FlasherState) :
    (refreshVariants s).targetCombo = s.targetCombo
    ∧ (refreshVariants s).downloadedVariants = s.downloadedVariants := by
  cases hsel : s.targetCombo.getSelectedValue with
  | none => simp [refreshVariants, hsel]
  | some t =>
    by_cases hc : some t ≠ s.lastHandledTarget ∧ s.downloadedVariants ≠ []
    · simp [refreshVariants, hsel, hc]
    · simp [refreshVariants, hsel, hc]

theorem refreshVersions_preserves (s : FlasherState) :
    (refreshVersions s).targetCombo = s.targetCombo
    ∧ (refreshVersions s).variantCombo = s.variantCombo
    ∧ (refreshVersions s).downloadedVariants = s.downloadedVariants
    ∧ (refreshVersions s).lastHandledTarget = s.lastHandledTarget := by
  cases hsel : s.variantCombo.getSelectedValue with
  | none => simp [refreshVersions, hsel]
  | some v =>
    by_cases hc : some v ≠ s.lastHandledVariant
    · simp [refreshVersions, hsel, hc]
    · simp [refreshVersions, hsel, hc]

theorem refreshVariants_establishes (s : FlasherState) :
    ((refreshVariants s).targetCombo.getSelectedValue = none ∧
      (refreshVariants s).variantCombo = (⟨[], none⟩ : MappingCombobox Variant)) ∨
    (∃ t, (refreshVariants s).targetCombo.getSelectedValue = some t ∧
      ((refreshVariants s).lastHandledTarget = some t ∨
        (refreshVariants s).downloadedVariants = [])) := by
  cases hsel : s.targetCombo.getSelectedValue with
  | none =>
    left
    constructor
    · rw [(refreshVariants_preserves s).1]
      exact hsel
    · simp only [refreshVariants, hsel]
      rfl
  | some t =>
    right
    refine ⟨t, ?_, ?_⟩
    · rw [(refreshVariants_preserves s).1]
      exact hsel
    · simp only [refreshVariants, hsel]
      by_cases hc : some t ≠ s.lastHandledTarget ∧ s.downloadedVariants ≠ []
      · rw [if_pos hc]
        left
        rfl
      · rw [if_neg hc]
        rcases not_and_or.mp hc with h1 | h2
        · left
          exact (not_not.mp h1).symm
        · right
          exact not_not.mp h2

theorem refreshVariants_fixed (s : FlasherState)
    (h : (s.targetCombo.getSelectedValue = none ∧
        s.variantCombo = (⟨[], none⟩ : MappingCombobox Variant)) ∨
      (∃ t, s.targetCombo.getSelectedValue = some t ∧
        (s.lastHandledTarget = some t ∨ s.downloadedVariants = []))) :
    refreshVariants s = s := by
  rcases h with ⟨hn, hv⟩ | ⟨t, ht, hd⟩
  · have hvc : (s.variantCombo.setMapping []).selectNone = s.variantCombo := by
      rw [hv]
      rfl
    simp only [refreshVariants, hn, hvc]
  · have hcond : ¬(some t ≠ s.lastHandledTarget ∧ s.downloadedVariants ≠ []) := by
      rcases hd with hd | hd
      · intro hc
        exact hc.1 hd.symm
      · intro hc
        exact hc.2 hd
    simp only [refreshVariants, ht]
    rw [if_neg hcond]

theorem refreshVersions_establishes (s : FlasherState) :
    ((refreshVersions s).variantCombo.getSelectedValue = none ∧
      (refreshVersions s).versionCombo = (⟨[], none⟩ : MappingCombobox String)) ∨
    (∃ v, (refreshVersions s).variantCombo.getSelectedValue = some v ∧
      (refreshVersions s).lastHandledVariant = some v) := by
  cases hsel : s.variantCombo.getSelectedValue with
  | none =>
    left
    constructor
    · rw [(refreshVersions_preserves s).2.1]
      exact hsel
    · simp only [refreshVersions, hsel]
      rfl
  | some v =>
    right
    refine ⟨v, ?_, ?_⟩
    · rw [(refreshVersions_preserves s).2.1]
      exact hsel
    · simp only [refreshVersions, hsel]
      by_cases hc : some v ≠ s.lastHandledVariant
      · rw [if_pos hc]
      · rw [if_neg hc]
        exact (not_not.mp hc).symm

theorem refreshVersions_fixed (s : FlasherState)
    (h : (s.variantCombo.getSelectedValue = none ∧
        s.versionCombo = (⟨[], none⟩ : MappingCombobox String)) ∨
      (∃ v, s.variantCombo.getSelectedValue = some v ∧
        s.lastHandledVariant = some v)) :
    refreshVersions s = s := by
  rcases h with ⟨hn, hv⟩ | ⟨v, hsel, hlh⟩
  · have hvc : (s.versionCombo.selectNone).setMapping [] = s.versionCombo := by
      rw [hv]
      rfl
    simp only [refreshVersions, hn, hvc]
  · have hcond : ¬(some v ≠ s.lastHandledVariant) := by
      intro hc
      exact hc hlh.symm
    simp only [refreshVersions, hsel]
    rw [if_neg hcond]

theorem inv_after_refreshVersions (s : FlasherState)
    (h : (s.targetCombo.getSelectedValue = none ∧
        s.variantCombo = (⟨[], none⟩ : MappingCombobox Variant)) ∨
      (∃ t, s.targetCombo.getSelectedValue = some t ∧
        (s.lastHandledTarget = some t ∨ s.downloadedVariants = []))) :
    ((refreshVersions s).targetCombo.getSelectedValue = none ∧
      (refreshVersions s).variantCombo = (⟨[], none⟩ : MappingCombobox Variant)) ∨
    (∃ t, (refreshVersions s).targetCombo.getSelectedValue = some t ∧
      ((refreshVersions s).lastHandledTarget = some t ∨
        (refreshVersions s).downloadedVariants = [])) := by
  obtain ⟨h1, h2, h3, h4⟩ := refreshVersions_preserves s
  rw [h1, h2, h3, h4]
  exact h

theorem updateUi_targetMapping (s : FlasherState)
    (targets : List (String × Uf2TargetInfo)) :
    (updateUi s targets).targetCombo.mapping = targets := by
  unfold updateUi
  rw [(refreshVersions_preserves _).1, (refreshVariants_preserves _).1]
  exact refreshTargets_mapping s targets

theorem updateUi_fixed (s : FlasherState)
    (targets : List (String × Uf2TargetInfo)) :
    updateUi (updateUi s targets) targets = updateUi s targets := by
  have h1 : refreshTargets (updateUi s targets) targets = updateUi s targets :=
    refreshTargets_fixed _ _ (updateUi_targetMapping s targets)
  have h2 : refreshVariants (updateUi s targets) = updateUi s targets :=
    refreshVariants_fixed _
      (inv_after_refreshVersions _
        (refreshVariants_establishes (refreshTargets s targets)))
  have h3 : refreshVersions (updateUi s targets) = updateUi s targets :=
    refreshVersions_fixed _
      (refreshVersions_establishes (refreshVariants (refreshTargets s targets)))
  show refreshVersions (refreshVariants (refreshTargets (updateUi s targets) targets)) =
    updateUi s targets
  rw [h1, h2, h3]

/-- C5: One refresh tick is idempotent: running `update_ui` twice with the
same detected target set, the same catalog and no user input in between
leaves all three comboboxes (mappings and selections) exactly as after the
first run, the "last handled" markers suppressing recomputation. -/
theorem updateUi_idempotent (s : FlasherState)
    (targets : List (String × Uf2TargetInfo)) :
    (updateUi (updateUi s targets) targets).targetCombo =
      (updateUi s targets).targetCombo
    ∧ (updateUi (updateUi s targets) targets).variantCombo =
      (updateUi s targets).variantCombo
    ∧ (updateUi (updateUi s targets) targets).versionCombo =
      (updateUi s targets).versionCombo := by
  rw [updateUi_fixed]
  exact ⟨rfl, rfl, rfl⟩

end Flasher
